import Mathlib

/-!
Verification of the auraloss frequency-domain loss module (`auraloss/freq.py`)
against its natural-language specification.

The code is shallowly embedded over rational-valued tensors represented as
nested lists: a 3-D tensor of shape `(batch, rows, cols)` is a
`List (List (List ℚ))`.  Library collaborators that the module calls but does
not define (the short-time Fourier transform `torch.stft`, `sqrt`, `log`, and
the librosa mel / chroma filterbank constructors) are abstracted into an
`Ext` structure of function parameters, exactly as the spec declares them
external interfaces.  Python exceptions are modelled with `Except PyErr`.
-/

namespace Auraloss

/-- 2-D tensor `(rows, cols)` of rationals. -/
abbrev T2 := List (List ℚ)

/-- 3-D tensor `(batch, rows, cols)` of rationals. -/
abbrev T3 := List (List (List ℚ))

/-- A batch of 1-D signals, shape `(batch, samples)` — the 2-D view
`x.view(-1, x.size(-1))` that `STFTLoss.forward` feeds to `torch.stft`. -/
abbrev Sig := List (List ℚ)

/-- A filterbank matrix `(n_bins, fft_size/2+1)`. -/
abbrev Mat := List (List ℚ)

/-- Elementwise map over a 3-D tensor. -/
def map1 (f : ℚ → ℚ) (x : T3) : T3 :=
  x.map (fun m => m.map (fun r => r.map f))

/-- Elementwise binary map (torch broadcasting is not needed for the
equal-shaped operands the module produces). -/
def map2q (f : ℚ → ℚ → ℚ) (x y : T3) : T3 :=
  List.zipWith (fun a b => List.zipWith (fun r s => List.zipWith f r s) a b) x y

/-- Sum of all entries of a 2-D tensor. -/
def sum2 (m : T2) : ℚ := (m.map List.sum).sum

/-- Sum of all entries of a 3-D tensor. -/
def sum3 (x : T3) : ℚ := (x.map sum2).sum

/-- Number of entries of a 3-D tensor. -/
def numel3 (x : T3) : ℕ := (x.map (fun m => (m.map List.length).sum)).sum

/-- Entry access with default 0 (out-of-range reads never happen on
rectangular data). -/
def get3 (x : T3) (b f t : ℕ) : ℚ := ((x.getD b []).getD f []).getD t 0

/-- Size of dimension 1 (rows of the first batch element). -/
def dim1 (x : T3) : ℕ := (x.headD []).length

/-- Size of dimension 2 (columns of the first row of the first batch element). -/
def dim2 (x : T3) : ℕ := ((x.headD []).headD []).length

/-- The tensor is rectangular: every batch slice has `dim1` rows and every
row has `dim2` entries. -/
def Rect3 (x : T3) : Prop :=
  ∀ m ∈ x, m.length = dim1 x ∧ ∀ r ∈ m, r.length = dim2 x

instance : DecidablePred Rect3 := fun x => by
  unfold Rect3; infer_instance

/-- Python exceptions raised by the module, one constructor per `raise` /
failure site.  `valueErrorInput len max` stands for
"Input length (len) must be larger than largest FFT size (max)." and
`valueErrorTarget` for the matching Target message. -/
inductive PyErr where
  | valueErrorInput (len maxFft : ℕ)
  | valueErrorTarget (len maxFft : ℕ)
  | assertionError
  | typeError
  | nameErrorPhsLoss
  | attributeErrorFb
  | zeroDivisionError
  | shapeMismatch
deriving DecidableEq, Repr

/-- External collaborators (spec §6): `sqrt` and `log` of the host numeric
framework, the complex short-time transform `torch.stft` (returned as a pair
of real/imaginary `(batch, freq_bins, frames)` tensors), and the librosa
mel / chroma filterbank constructors. -/
structure Ext where
  sqrtFn : ℚ → ℚ
  logFn : ℚ → ℚ
  stft : ℕ → ℕ → ℕ → String → Sig → T3 × T3
  melFB : ℚ → ℕ → ℕ → Mat
  chromaFB : ℚ → ℕ → ℕ → Mat

/-- Frobenius norm `torch.norm(t, p="fro")`: square root of the sum of all
squared entries, taken jointly over the whole tensor. -/
def froNorm (ext : Ext) (t : T3) : ℚ := ext.sqrtFn (sum3 (map1 (fun q => q * q) t))

/-- `SpectralConvergenceLoss.forward`:
`torch.norm(y_mag - x_mag, p="fro") / torch.norm(y_mag, p="fro")`. -/
def SpectralConvergenceLoss.forward (ext : Ext) (x_mag y_mag : T3) : ℚ :=
  froNorm ext (map2q (fun a b => a - b) y_mag x_mag) / froNorm ext y_mag

/-- `LogSTFTMagnitudeLoss.forward`:
`torch.nn.functional.l1_loss(torch.log(x_mag), torch.log(y_mag))`, i.e. the
mean absolute difference of the log tensors. -/
def LogSTFTMagnitudeLoss.forward (ext : Ext) (x_mag y_mag : T3) : ℚ :=
  sum3 (map2q (fun a b => |ext.logFn a - ext.logFn b|) x_mag y_mag) /
    (numel3 (map2q (fun a b => |ext.logFn a - ext.logFn b|) x_mag y_mag) : ℚ)

/-- Configuration and construction-time state of one `STFTLoss` module.
`fb` is the filterbank tensor built in `__init__` when `scale` is set. -/
structure STFTLoss where
  fft_size : ℕ
  hop_size : ℕ
  win_length : ℕ
  window : String
  w_sc : ℚ
  w_mag : ℚ
  w_phs : ℚ
  w_real : ℚ
  w_imag : ℚ
  sample_rate : Option ℚ
  scale : Option String
  n_bins : Option ℕ
  scale_invariance : Bool
  eps : ℚ
  output : String
  reduction : String
  fb : Option Mat
deriving DecidableEq, Repr

/-- `STFTLoss.__init__`.  The only failure paths are the two `assert`s of the
mel / chroma branches (a `None` sample rate or `n_bins > fft_size`); comparing
a `None` `n_bins` with an int is a Python `TypeError`.  Every other argument,
including an unrecognized `reduction` or `output`, is stored unchecked. -/
def STFTLoss.init (ext : Ext) (fft_size hop_size win_length : ℕ) (window : String)
    (w_sc w_mag w_phs w_real w_imag : ℚ) (sample_rate : Option ℚ)
    (scale : Option String) (n_bins : Option ℕ) (scale_invariance : Bool)
    (eps : ℚ) (output reduction : String) : Except PyErr STFTLoss := do
  let fb ←
    if scale = some "mel" then
      match sample_rate with
      | none => throw .assertionError
      | some sr =>
        match n_bins with
        | none => throw .typeError
        | some nb =>
          if nb ≤ fft_size then pure (some (ext.melFB sr fft_size nb))
          else throw .assertionError
    else if scale = some "chroma" then
      match sample_rate with
      | none => throw .assertionError
      | some sr =>
        match n_bins with
        | none => throw .typeError
        | some nb =>
          if nb ≤ fft_size then pure (some (ext.chromaFB sr fft_size nb))
          else throw .assertionError
    else pure none
  pure { fft_size, hop_size, win_length, window, w_sc, w_mag, w_phs, w_real,
         w_imag, sample_rate, scale, n_bins, scale_invariance, eps, output,
         reduction, fb }

/-- `STFTLoss.stft`: run the external transform and derive the clamped
magnitude, real-part and imaginary-part tensors.  (The Python function also
returns a phase slot that is always `None`; it is dropped here.) -/
def STFTLoss.stft (ext : Ext) (self : STFTLoss) (x : Sig) : T3 × T3 × T3 :=
  let p := ext.stft self.fft_size self.hop_size self.win_length self.window x
  let mag := map2q (fun a b => ext.sqrtFn (max (a * a + b * b) self.eps)) p.1 p.2
  let re := map1 (fun a => max a self.eps) p.1
  let im := map1 (fun a => max a self.eps) p.2
  (mag, re, im)

/-- The per-batch-element scalars
`alpha = (x_mag * y_mag).sum([-2,-1]) / ((y_mag ** 2).sum([-2,-1]))`. -/
def alphaOf (x_mag y_mag : T3) : List ℚ :=
  List.zipWith
    (fun xb yb =>
      sum2 (List.zipWith (fun r s => List.zipWith (fun a b => a * b) r s) xb yb) /
        sum2 (yb.map (fun r => r.map (fun b => b * b))))
    x_mag y_mag

/-- `y_mag * alpha.unsqueeze(-1)` with PyTorch broadcasting semantics:
the factor has shape `(B, 1)`, viewed as `(1, B, 1)` against `(B, F, T)`,
so it is valid only when `F = B`, `F = 1` or `B = 1`, and the factor index
is aligned with the *frequency* axis, not the batch axis. -/
def broadcastMulAlpha (y_mag : T3) (alpha : List ℚ) : Except PyErr T3 :=
  if dim1 y_mag = y_mag.length ∨ dim1 y_mag = 1 ∨ y_mag.length = 1 then
    .ok ((List.range y_mag.length).map (fun b =>
      (List.range (if dim1 y_mag = 1 then y_mag.length else dim1 y_mag)).map
        (fun f =>
          (List.range (dim2 y_mag)).map (fun t =>
            get3 y_mag b (if dim1 y_mag = 1 then 0 else f) t *
              (alpha.getD (if y_mag.length = 1 then 0 else f) 0)))))
  else .error .shapeMismatch

/-- The scale-invariance block of `STFTLoss.forward` (lines 153–155): compute
`alpha` and rescale the target magnitudes. -/
def scaleInvTarget (x_mag y_mag : T3) : Except PyErr T3 :=
  broadcastMulAlpha y_mag (alphaOf x_mag y_mag)

/-- `torch.matmul(self.fb, mag)` with the filterbank unsqueezed to a batch of
one: for each batch slice, ordinary matrix product along the frequency axis. -/
def matmulFB (fb : Mat) (x : T3) : T3 :=
  x.map (fun m =>
    fb.map (fun row =>
      (List.range (m.headD []).length).map (fun t =>
        (List.zipWith (fun c r => c * r.getD t 0) row m).sum)))

/-- Magnitude-processing prefix of `STFTLoss.forward`: compute both magnitude
spectra, optionally remap the frequency axis through the filterbank, and
optionally apply the scale-invariant realignment of the target. -/
def STFTLoss.procMags (ext : Ext) (self : STFTLoss) (x y : Sig) :
    Except PyErr (T3 × T3) := do
  let x_mag := (self.stft ext x).1
  let y_mag := (self.stft ext y).1
  let (x_mag, y_mag) ←
    match self.scale with
    | none => pure (x_mag, y_mag)
    | some _ =>
      match self.fb with
      | none => throw .attributeErrorFb
      | some fb => pure (matmulFB fb x_mag, matmulFB fb y_mag)
  if self.scale_invariance then
    let y_mag' ← scaleInvTarget x_mag y_mag
    pure (x_mag, y_mag')
  else
    pure (x_mag, y_mag)

/-- Modelled from the spec: `apply_reduction` lives in the repository's
`auraloss/utils.py`, which is not part of the provided sources.  Spec §4.1:
`none` returns the input unchanged, `mean` averages over all elements and
`sum` totals them.  Every loss tensor reaching it in this module is a
zero-dimensional scalar, for which all three modes return the value itself. -/
def apply_reduction (loss : ℚ) (reduction : String) : ℚ := loss

/-- The scalar loss computed by `STFTLoss.forward` (lines 141–169), up to and
including the reduction: weighted spectral-convergence and log-magnitude
terms, plus the conditional real-part and imaginary-part terms. -/
def STFTLoss.lossValue (ext : Ext) (self : STFTLoss) (x y : Sig) :
    Except PyErr ℚ := do
  let (x_mag, y_mag) ← self.procMags ext x y
  let sc_loss := SpectralConvergenceLoss.forward ext x_mag y_mag
  let mag_loss := LogSTFTMagnitudeLoss.forward ext x_mag y_mag
  let l0 := self.w_sc * sc_loss + self.w_mag * mag_loss
  let l1 :=
    if 0 < self.w_real then
      l0 + self.w_real *
        LogSTFTMagnitudeLoss.forward ext (self.stft ext x).2.1 (self.stft ext y).2.1
    else l0
  let l2 :=
    if 0 < self.w_imag then
      l1 + self.w_imag *
        LogSTFTMagnitudeLoss.forward ext (self.stft ext x).2.2 (self.stft ext y).2.2
    else l1
  pure (apply_reduction l2 self.reduction)

/-- Result of a call to `STFTLoss.forward`: a bare scalar for
`output="loss"`, or Python's implicit `None` for an unrecognized mode
(the `output="full"` branch never returns, see `STFTLoss.forward`). -/
inductive FwdResult where
  | scalarOut (q : ℚ)
  | noneOut
deriving DecidableEq, Repr

/-- `STFTLoss.forward` (lines 171–174): after the loss is computed and
reduced, `output="loss"` returns it; `output="full"` evaluates
`return loss, sc_loss, mag_loss, phs_loss`, and `phs_loss` is a name that is
never assigned anywhere in the function, so Python raises `NameError`;
any other mode falls off the end and returns `None`. -/
def STFTLoss.forward (ext : Ext) (self : STFTLoss) (x y : Sig) :
    Except PyErr FwdResult := do
  let loss ← self.lossValue ext x y
  if self.output = "loss" then
    pure (.scalarOut loss)
  else if self.output = "full" then
    throw .nameErrorPhsLoss
  else
    pure .noneOut

/-- Extract the scalar a member's `forward` hands back to the ensemble loops
(`mrstft_loss += f(x, y)`); every member is constructed with the default
`output="loss"`, so the result is always a bare scalar there, and adding a
tuple or `None` would be a Python `TypeError`. -/
def FwdResult.asScalar : FwdResult → Except PyErr ℚ
  | .scalarOut q => .ok q
  | .noneOut => .error .typeError

/-- Default epsilon `1e-8` of `STFTLoss.__init__`. -/
def defaultEps : ℚ := 1 / 100000000

/-- `MultiResolutionSTFTLoss.__init__`: assert the three resolution lists have
equal length and build one `STFTLoss` per zipped triple, passing the shared
options positionally (so `eps`, `output` and `reduction` keep their defaults
`1e-8`, `"loss"` and `"mean"`). -/
def MultiResolutionSTFTLoss.init (ext : Ext) (fft_sizes hop_sizes win_lengths : List ℕ)
    (window : String) (w_sc w_mag w_phs w_real w_imag : ℚ) (sample_rate : Option ℚ)
    (scale : Option String) (n_bins : Option ℕ) (scale_invariance : Bool) :
    Except PyErr (List STFTLoss) := do
  if fft_sizes.length = hop_sizes.length ∧ hop_sizes.length = win_lengths.length then
    (List.zip fft_sizes (List.zip hop_sizes win_lengths)).mapM (fun z =>
      STFTLoss.init ext z.1 z.2.1 z.2.2 window w_sc w_mag w_phs w_real w_imag
        sample_rate scale n_bins scale_invariance defaultEps "loss" "mean")
  else
    throw .assertionError

/-- `MultiResolutionSTFTLoss.forward`: start from `0.0`, add every member's
output, divide by the member count (`len` of an empty module list would make
the final division a `ZeroDivisionError`). -/
def MultiResolutionSTFTLoss.forward (ext : Ext) (stft_losses : List STFTLoss)
    (x y : Sig) : Except PyErr ℚ := do
  let ls ← stft_losses.mapM (fun f => do (← f.forward ext x y).asScalar)
  if stft_losses.length = 0 then throw .zeroDivisionError
  else pure (ls.foldl (fun a b => a + b) 0 / (stft_losses.length : ℚ))

/-- Constructor parameters of `RandomResolutionSTFTLoss` that survive into the
object's fields (the `windows` list only feeds the sampler and is carried by
the draws below). -/
structure RRParams where
  resolutions : ℕ
  min_fft_size : ℕ
  max_fft_size : ℕ
  min_hop_size : ℚ
  max_hop_size : ℚ
  w_sc : ℚ
  w_mag : ℚ
  w_phs : ℚ
  w_real : ℚ
  w_imag : ℚ
  sample_rate : Option ℚ
  scale : Option String
  n_mels : Option ℕ
  randomize_rate : ℕ
deriving DecidableEq, Repr

/-- One iteration's worth of random draws consumed by `randomize_losses`:
the exponent from `np.random.randint`, the uniform variate from
`np.random.rand()`, the window-length factor chosen from `{1.0, 0.5, 0.25}`
and the window name chosen from the configured list.  Randomness is injected
as data so the sampling arithmetic stays the code's. -/
structure RandDraw where
  u : ℕ
  r : ℚ
  c : ℚ
  window : String
deriving DecidableEq, Repr

/-- Mutable state of a `RandomResolutionSTFTLoss` object: the forward-call
counter and the current member list. -/
structure RRState where
  nforwards : ℕ
  stft_losses : List STFTLoss
deriving DecidableEq, Repr

/-- The member configuration built from one draw inside `randomize_losses`:
`frame_size = 2 ** u`, `hop_size = int(frame_size * (min_hop + r * (max_hop - min_hop)))`,
`window_length = int(frame_size * c)`, then `STFTLoss(...)` with the stored
weighting options (and default `scale_invariance`, `eps`, `output`,
`reduction`). -/
def RandomResolutionSTFTLoss.sampleOne (ext : Ext) (p : RRParams) (d : RandDraw) :
    Except PyErr STFTLoss :=
  let frame_size : ℕ := 2 ^ d.u
  let hop_size : ℕ :=
    (⌊(frame_size : ℚ) * (p.min_hop_size + d.r * (p.max_hop_size - p.min_hop_size))⌋).toNat
  let window_length : ℕ := (⌊(frame_size : ℚ) * d.c⌋).toNat
  STFTLoss.init ext frame_size hop_size window_length d.window p.w_sc p.w_mag
    p.w_phs p.w_real p.w_imag p.sample_rate p.scale p.n_mels false defaultEps
    "loss" "mean"

/-- `RandomResolutionSTFTLoss.randomize_losses`: clear the member list and
append `resolutions` freshly sampled `STFTLoss` members; if one construction
raises, the members built so far remain. -/
def RandomResolutionSTFTLoss.randomize_losses (ext : Ext) (p : RRParams)
    (draws : ℕ → RandDraw) : List STFTLoss × Option PyErr :=
  go (List.range p.resolutions) []
where
  go : List ℕ → List STFTLoss → List STFTLoss × Option PyErr
    | [], acc => (acc, none)
    | n :: ns, acc =>
      match RandomResolutionSTFTLoss.sampleOne ext p (draws n) with
      | .ok c => go ns (acc ++ [c])
      | .error e => (acc ++ [], some e)

/-- `RandomResolutionSTFTLoss.__init__`: store the parameters, set
`nforwards = 0` and run `randomize_losses` once; a sampling failure aborts
construction. -/
def RandomResolutionSTFTLoss.init (ext : Ext) (p : RRParams) (draws : ℕ → RandDraw) :
    Except PyErr RRState :=
  match RandomResolutionSTFTLoss.randomize_losses ext p draws with
  | (_, some e) => .error e
  | (ms, none) => .ok { nforwards := 0, stft_losses := ms }

/-- Length of the last dimension, `x.size(-1)`. -/
def sizeLast (x : Sig) : ℕ := (x.headD []).length

/-- The member-evaluation tail of `RandomResolutionSTFTLoss.forward` (lines
369–376): accumulate every member's output, divide by the member count and
then increment `nforwards`; a member raise or the empty-list division leaves
the already-assigned member list in place with the counter untouched. -/
def RandomResolutionSTFTLoss.evalMembers (ext : Ext) (st : RRState)
    (ms : List STFTLoss) (input target : Sig) : RRState × Except PyErr ℚ :=
  match ms.mapM (fun f => do (← f.forward ext input target).asScalar) with
  | .error e => ({ st with stft_losses := ms }, .error e)
  | .ok ls =>
    if ms.length = 0 then
      ({ st with stft_losses := ms }, .error .zeroDivisionError)
    else
      ({ nforwards := st.nforwards + 1, stft_losses := ms },
        .ok (ls.foldl (fun a b => a + b) 0 / (ms.length : ℚ)))

/-- `RandomResolutionSTFTLoss.forward`: validate both signal lengths against
`max_fft_size` (input first, `elif` target), resample the member list when
`nforwards % randomize_rate == 0`, then run the member-evaluation tail.
The post-call state is returned next to the result so the mutation
discipline is visible: a raise leaves every field already written by the
time it fires. -/
def RandomResolutionSTFTLoss.forward (ext : Ext) (p : RRParams)
    (draws : ℕ → RandDraw) (st : RRState) (input target : Sig) :
    RRState × Except PyErr ℚ :=
  if sizeLast input ≤ p.max_fft_size then
    (st, .error (.valueErrorInput (sizeLast input) p.max_fft_size))
  else if sizeLast target ≤ p.max_fft_size then
    (st, .error (.valueErrorTarget (sizeLast target) p.max_fft_size))
  else if st.nforwards % p.randomize_rate = 0 then
    match RandomResolutionSTFTLoss.randomize_losses ext p draws with
    | (ms, some e) => ({ st with stft_losses := ms }, .error e)
    | (ms, none) => RandomResolutionSTFTLoss.evalMembers ext st ms input target
  else
    RandomResolutionSTFTLoss.evalMembers ext st st.stft_losses input target

/-- A batch of two-channel signals: each batch element carries its two
channels of samples. -/
abbrev StereoSig := List (List ℚ × List ℚ)

/-- Modelled from the spec: the `SumAndDifference` module is imported from
`auraloss/perceptual.py`, which is not among the provided sources.  Spec §4.9:
decompose a two-channel signal into `sum = channel0 + channel1` and
`diff = channel0 - channel1`. -/
def SumAndDifference (x : StereoSig) : Sig × Sig :=
  (x.map (fun c => List.zipWith (fun a b => a + b) c.1 c.2),
   x.map (fun c => List.zipWith (fun a b => a - b) c.1 c.2))

/-- Fields of a constructed `SumAndDifferenceSTFTLoss` object. -/
structure SumAndDifferenceSTFTLoss where
  w_sum : ℚ
  w_diff : ℚ
  output : String
  mrstft : List STFTLoss
deriving DecidableEq, Repr

/-- `SumAndDifferenceSTFTLoss.__init__`: the constructor accepts `w_sum` and
`w_diff` but assigns the literals `1.0` to both fields, and builds the inner
`MultiResolutionSTFTLoss` from the four resolution arguments alone (every
other multi-resolution option keeps its default). -/
def SumAndDifferenceSTFTLoss.init (ext : Ext)
    (fft_sizes hop_sizes win_lengths : List ℕ) (window : String)
    (w_sum w_diff : ℚ) (output : String) :
    Except PyErr SumAndDifferenceSTFTLoss := do
  let ms ← MultiResolutionSTFTLoss.init ext fft_sizes hop_sizes win_lengths
    window 1 1 0 0 0 none none none false
  pure { w_sum := 1, w_diff := 1, output, mrstft := ms }

/-- Result of `SumAndDifferenceSTFTLoss.forward`: the bare scalar for
`output="loss"`, the `(loss, sum_loss, diff_loss)` triple for
`output="full"`, or Python's implicit `None` otherwise. -/
inductive SDResult where
  | scalarOut (q : ℚ)
  | fullOut (loss sum_loss diff_loss : ℚ)
  | noneOut
deriving DecidableEq, Repr

/-- `SumAndDifferenceSTFTLoss.forward`: decompose both stereo signals, run the
inner ensemble on the sum pair and on the difference pair, and combine as
`((w_sum * sum_loss) + (w_diff * diff_loss)) / 2`. -/
def SumAndDifferenceSTFTLoss.forward (ext : Ext)
    (self : SumAndDifferenceSTFTLoss) (input target : StereoSig) :
    Except PyErr SDResult := do
  let ipair := SumAndDifference input
  let tpair := SumAndDifference target
  let sum_loss ← MultiResolutionSTFTLoss.forward ext self.mrstft ipair.1 tpair.1
  let diff_loss ← MultiResolutionSTFTLoss.forward ext self.mrstft ipair.2 tpair.2
  let loss := (self.w_sum * sum_loss + self.w_diff * diff_loss) / 2
  if self.output = "loss" then
    pure (.scalarOut loss)
  else if self.output = "full" then
    pure (.fullOut loss sum_loss diff_loss)
  else
    pure .noneOut

deriving instance DecidableEq for Except

attribute [local semireducible] Rat.add Rat.mul Rat.inv Rat.sub

/-- Concrete collaborator instance used by witness evaluations: `sqrt` is the
nonnegative truncation (so it vanishes at zero and is positive on positive
inputs), `log` is the identity, the transform returns the first sample as a
single one-bin frame, and the filterbank constructors return empty matrices. -/
def extW : Ext where
  sqrtFn := fun q => max q 0
  logFn := fun q => q
  stft := fun _ _ _ _ x => ([[[(x.headD []).headD 0]]], [[[0]]])
  melFB := fun _ _ _ => []
  chromaFB := fun _ _ _ => []

/-- Concrete default-like `STFTLoss` configuration used by witness
evaluations. -/
def cfgW : STFTLoss where
  fft_size := 4
  hop_size := 2
  win_length := 4
  window := "hann_window"
  w_sc := 1
  w_mag := 1
  w_phs := 0
  w_real := 0
  w_imag := 0
  sample_rate := none
  scale := none
  n_bins := none
  scale_invariance := false
  eps := defaultEps
  output := "loss"
  reduction := "mean"
  fb := none

/-- Helper: in `output="loss"` mode a successful loss computation is returned
as the bare scalar. -/
lemma STFTLoss.forward_loss_mode (ext : Ext) (self : STFTLoss) (x y : Sig)
    (hout : self.output = "loss") (q : ℚ)
    (hok : self.lossValue ext x y = .ok q) :
    self.forward ext x y = .ok (.scalarOut q) := by
  unfold STFTLoss.forward
  rw [hok, hout]
  rfl

/-- C1: the claim says `output="full"` returns the `(total, sc_loss,
mag_loss)` triple with the phase term omitted.  In the code the `full`
branch executes `return loss, sc_loss, mag_loss, phs_loss`, and `phs_loss`
is a name never assigned in `forward`, so the call raises `NameError`
instead of returning; only the `output="loss"` branch returns, yielding the
reduced total alone. -/
theorem STFTLoss.forward_full_raises_nameError (ext : Ext) (self : STFTLoss)
    (x y : Sig) (q : ℚ) (hok : self.lossValue ext x y = .ok q) :
    (self.output = "full" → self.forward ext x y = .error .nameErrorPhsLoss) ∧
    (self.output = "loss" → self.forward ext x y = .ok (.scalarOut q)) := by
  constructor
  · intro hfull
    unfold STFTLoss.forward
    rw [hok, hfull]
    rfl
  · intro hloss
    exact STFTLoss.forward_loss_mode ext self x y hloss q hok

/-- C1 witness: the concrete failing evaluation. -/
theorem STFTLoss.forward_full_raises_nameError_witness :
    STFTLoss.forward extW { cfgW with output := "full" } [[1]] [[1]] =
      .error .nameErrorPhsLoss :=
  (STFTLoss.forward_full_raises_nameError extW { cfgW with output := "full" }
    [[1]] [[1]] 0 (by decide)).1 (by decide)

/-- C2 counterexample: constructing an `STFTLoss` with the unrecognized
reduction mode `"median"` succeeds — no configuration error is raised at
construction time, contrary to the claim. -/
theorem STFTLoss.init_unrecognized_reduction_cex :
    (STFTLoss.init extW 1024 256 1024 "hann_window" 1 1 0 0 0 none none none
      false defaultEps "loss" "median").isOk = true := by decide

/-- C2 amended: `STFTLoss.__init__` stores the reduction string without any
validation, so (when no frequency scaling is requested) construction
succeeds for every reduction mode, recognized or not; no error is raised at
construction time. -/
theorem STFTLoss.init_stores_any_reduction (ext : Ext)
    (fft_size hop_size win_length : ℕ) (window : String)
    (w_sc w_mag w_phs w_real w_imag : ℚ) (sample_rate : Option ℚ)
    (n_bins : Option ℕ) (scale_invariance : Bool) (eps : ℚ)
    (output reduction : String) :
    STFTLoss.init ext fft_size hop_size win_length window w_sc w_mag w_phs
      w_real w_imag sample_rate none n_bins scale_invariance eps output
      reduction =
    .ok { fft_size, hop_size, win_length, window, w_sc, w_mag, w_phs, w_real,
          w_imag, sample_rate, scale := none, n_bins, scale_invariance, eps,
          output, reduction, fb := none } := by
  rfl

/-- The scale-invariant realignment as the specification words it: one
scalar `alpha` per batch element, the whole batch element of `y_mag`
multiplied by its own `alpha`.  Stated purely for comparison against the
code's `scaleInvTarget`. -/
def scaleInvTargetSpec (x_mag y_mag : T3) : T3 :=
  List.zipWith (fun yb a => yb.map (fun r => r.map (fun q => q * a)))
    y_mag (alphaOf x_mag y_mag)

/-- C3: at the concrete magnitude pair with two batch elements, two
frequency bins and one frame, the code computes the per-batch factors
`alpha = [2, 3]` correctly, but the broadcast multiplies along the frequency
axis, producing `[[[2],[3]],[[4],[6]]]` where per-batch scaling (the spec's
words, `scaleInvTargetSpec`) gives `[[[2],[2]],[[6],[6]]]`; and at a
two-batch, three-bin pair the broadcast shapes are incompatible, so the
call raises instead of scaling. -/
theorem scaleInvTarget_wrong_axis :
    alphaOf [[[2],[2]],[[6],[6]]] [[[1],[1]],[[2],[2]]] = [2, 3] ∧
    scaleInvTarget [[[2],[2]],[[6],[6]]] [[[1],[1]],[[2],[2]]] =
      .ok [[[2],[3]],[[4],[6]]] ∧
    scaleInvTargetSpec [[[2],[2]],[[6],[6]]] [[[1],[1]],[[2],[2]]] =
      [[[2],[2]],[[6],[6]]] ∧
    ¬ ([[[2],[3]],[[4],[6]]] : T3) = [[[2],[2]],[[6],[6]]] ∧
    scaleInvTarget [[[1],[1],[1]],[[1],[1],[1]]] [[[1],[1],[1]],[[1],[1],[1]]] =
      .error .shapeMismatch := by
  decide

/-- Helper: explicit formula for a successful `lossValue` computation. -/
lemma STFTLoss.lossValue_eq (ext : Ext) (self : STFTLoss) (x y : Sig)
    (x_mag y_mag : T3) (h : self.procMags ext x y = .ok (x_mag, y_mag)) :
    self.lossValue ext x y = .ok (
      self.w_sc * SpectralConvergenceLoss.forward ext x_mag y_mag +
      self.w_mag * LogSTFTMagnitudeLoss.forward ext x_mag y_mag +
      (if 0 < self.w_real then
        self.w_real * LogSTFTMagnitudeLoss.forward ext
          (self.stft ext x).2.1 (self.stft ext y).2.1
      else 0) +
      (if 0 < self.w_imag then
        self.w_imag * LogSTFTMagnitudeLoss.forward ext
          (self.stft ext x).2.2 (self.stft ext y).2.2
      else 0)) := by
  unfold STFTLoss.lossValue
  rw [h]
  show Except.ok (apply_reduction _ _) = _
  unfold apply_reduction
  congr 1
  split <;> split <;> ring

/-- C4: whenever the magnitude pipeline succeeds, the single-resolution
total equals `w_sc * sc_loss + w_mag * mag_loss`, plus the real-channel
log-magnitude term exactly when `w_real > 0` and the imaginary-channel term
exactly when `w_imag > 0`; and the stored `w_phs` has no effect on the
forward result. -/
theorem STFTLoss.lossValue_formula (ext : Ext) (self : STFTLoss) (x y : Sig) :
    (∀ x_mag y_mag, self.procMags ext x y = .ok (x_mag, y_mag) →
      self.lossValue ext x y = .ok (
        self.w_sc * SpectralConvergenceLoss.forward ext x_mag y_mag +
        self.w_mag * LogSTFTMagnitudeLoss.forward ext x_mag y_mag +
        (if 0 < self.w_real then
          self.w_real * LogSTFTMagnitudeLoss.forward ext
            (self.stft ext x).2.1 (self.stft ext y).2.1
        else 0) +
        (if 0 < self.w_imag then
          self.w_imag * LogSTFTMagnitudeLoss.forward ext
            (self.stft ext x).2.2 (self.stft ext y).2.2
        else 0))) ∧
    (∀ p : ℚ, STFTLoss.forward ext { self with w_phs := p } x y =
      self.forward ext x y) := by
  constructor
  · intro x_mag y_mag h
    exact STFTLoss.lossValue_eq ext self x y x_mag y_mag h
  · intro p
    cases self
    rfl

/-- C4 witness: concrete instantiation of the formula. -/
theorem STFTLoss.lossValue_formula_witness :
    STFTLoss.lossValue extW cfgW [[1]] [[1]] = .ok (
      cfgW.w_sc * SpectralConvergenceLoss.forward extW [[[1]]] [[[1]]] +
      cfgW.w_mag * LogSTFTMagnitudeLoss.forward extW [[[1]]] [[[1]]] +
      (if 0 < cfgW.w_real then
        cfgW.w_real * LogSTFTMagnitudeLoss.forward extW
          (cfgW.stft extW [[1]]).2.1 (cfgW.stft extW [[1]]).2.1
      else 0) +
      (if 0 < cfgW.w_imag then
        cfgW.w_imag * LogSTFTMagnitudeLoss.forward extW
          (cfgW.stft extW [[1]]).2.2 (cfgW.stft extW [[1]]).2.2
      else 0)) :=
  (STFTLoss.lossValue_formula extW cfgW [[1]] [[1]]).1 [[[1]]] [[[1]]]
    (by decide)

/-- Concrete `RandomResolutionSTFTLoss` parameters used by witness
evaluations. -/
def pW : RRParams where
  resolutions := 1
  min_fft_size := 2
  max_fft_size := 4
  min_hop_size := 1/2
  max_hop_size := 1
  w_sc := 1
  w_mag := 1
  w_phs := 0
  w_real := 0
  w_imag := 0
  sample_rate := none
  scale := none
  n_mels := none
  randomize_rate := 1

/-- Concrete random draws used by witness evaluations: frame size `2^2 = 4`,
hop factor `0`, window-length factor `1`. -/
def drawsW : ℕ → RandDraw := fun _ => ⟨2, 0, 1, "hann_window"⟩

/-- C10: when a forward call fails the input/target length validation, the
raise happens before the resample branch and before the counter increment,
so the ensemble state is returned unchanged and no result is produced. -/
theorem RandomResolutionSTFTLoss.invalid_length_atomic (ext : Ext)
    (p : RRParams) (draws : ℕ → RandDraw) (st : RRState) (input target : Sig)
    (h : sizeLast input ≤ p.max_fft_size ∨ sizeLast target ≤ p.max_fft_size) :
    (RandomResolutionSTFTLoss.forward ext p draws st input target).1 = st ∧
    ((RandomResolutionSTFTLoss.forward ext p draws st input target).2).isOk
      = false := by
  unfold RandomResolutionSTFTLoss.forward
  by_cases hA : sizeLast input ≤ p.max_fft_size
  · simp [hA, Except.isOk, Except.toBool]
  · have hB : sizeLast target ≤ p.max_fft_size := h.resolve_left hA
    simp [hA, hB, Except.isOk, Except.toBool]

/-- C10 witness: a length-4 signal against `max_fft_size = 4` leaves the
state `⟨0, []⟩` untouched. -/
theorem RandomResolutionSTFTLoss.invalid_length_atomic_witness :
    (RandomResolutionSTFTLoss.forward extW pW drawsW ⟨0, []⟩
      [[1, 1, 1, 1]] [[1, 1, 1, 1]]).1 = (⟨0, []⟩ : RRState) ∧
    ((RandomResolutionSTFTLoss.forward extW pW drawsW ⟨0, []⟩
      [[1, 1, 1, 1]] [[1, 1, 1, 1]]).2).isOk = false :=
  RandomResolutionSTFTLoss.invalid_length_atomic extW pW drawsW ⟨0, []⟩
    [[1, 1, 1, 1]] [[1, 1, 1, 1]] (Or.inl (by decide))

/-- C8: the sum/difference wrapper combines the two ensemble losses as
`((w_sum * sum_loss) + (w_diff * diff_loss)) / 2`, and the two weights it
uses are the literals `1.0` assigned in `__init__`, so the constructor's
`w_sum`/`w_diff` arguments have no effect on the constructed object. -/
theorem SumAndDifferenceSTFTLoss.fixed_unit_weights (ext : Ext)
    (fft_sizes hop_sizes win_lengths : List ℕ) (window : String)
    (w_sum w_diff w_sum' w_diff' : ℚ) (output : String) :
    SumAndDifferenceSTFTLoss.init ext fft_sizes hop_sizes win_lengths window
        w_sum w_diff output =
      SumAndDifferenceSTFTLoss.init ext fft_sizes hop_sizes win_lengths window
        w_sum' w_diff' output ∧
    ∀ sd, SumAndDifferenceSTFTLoss.init ext fft_sizes hop_sizes win_lengths
        window w_sum w_diff output = .ok sd →
      sd.w_sum = 1 ∧ sd.w_diff = 1 ∧
      ∀ input target s d,
        MultiResolutionSTFTLoss.forward ext sd.mrstft
          (SumAndDifference input).1 (SumAndDifference target).1 = .ok s →
        MultiResolutionSTFTLoss.forward ext sd.mrstft
          (SumAndDifference input).2 (SumAndDifference target).2 = .ok d →
        sd.output = "loss" →
        sd.forward ext input target =
          .ok (.scalarOut ((sd.w_sum * s + sd.w_diff * d) / 2)) := by
  constructor
  · rfl
  · intro sd h
    unfold SumAndDifferenceSTFTLoss.init at h
    cases hmr : MultiResolutionSTFTLoss.init ext fft_sizes hop_sizes
        win_lengths window 1 1 0 0 0 none none none false with
    | error e => rw [hmr] at h; exact absurd h (by simp [Except.bind])
    | ok ms =>
      rw [hmr] at h
      have hsd : sd = ⟨1, 1, output, ms⟩ := by
        have : (Except.ok (⟨1, 1, output, ms⟩ : SumAndDifferenceSTFTLoss)
            : Except PyErr _) = .ok sd := h
        cases this
        rfl
      subst hsd
      refine ⟨rfl, rfl, ?_⟩
      intro input target s d hs hd hout
      have hout' : output = "loss" := hout
      subst hout'
      simp only [SumAndDifferenceSTFTLoss.forward]
      simp [hs, hd]
      rfl

/-- C8 witness: concrete evaluation with constructor weights `7` and `9`
still using internal weights `1`. -/
theorem SumAndDifferenceSTFTLoss.fixed_unit_weights_witness :
    SumAndDifferenceSTFTLoss.forward extW ⟨1, 1, "loss", [cfgW]⟩
      [([1], [1])] [([1], [1])] =
      .ok (.scalarOut (((1 : ℚ) * 0 + 1 * 0) / 2)) := by
  have h := (SumAndDifferenceSTFTLoss.fixed_unit_weights extW [4] [2] [4]
    "hann_window" 7 9 3 5 "loss").2 ⟨1, 1, "loss", [cfgW]⟩ (by decide)
  exact h.2.2 [([1], [1])] [([1], [1])] 0 0 (by decide) (by decide) (by decide)

/-- Helper: left fold of addition starting at `a` is `a` plus the sum. -/
lemma foldl_add (l : List ℚ) : ∀ a : ℚ, l.foldl (fun u v => u + v) a = a + l.sum := by
  induction l with
  | nil => intro a; simp
  | cons h t ih => intro a; simp [ih, List.sum_cons]; ring

/-- Helper: binding a successful `Except` value. -/
lemma exbind_ok {ε α β : Type} (a : α) (f : α → Except ε β) :
    (do let v ← (Except.ok a : Except ε α); f v) = f a := rfl

/-- C7: `MultiResolutionSTFTLoss.forward` returns the sum of its members'
outputs divided by the member count; and an ensemble built from a single
resolution entry has exactly the one `STFTLoss` member with that same
configuration (defaults `eps = 1e-8`, `output = "loss"`,
`reduction = "mean"`), whose forward value it reproduces unchanged. -/
theorem MultiResolutionSTFTLoss.forward_average (ext : Ext)
    (stft_losses : List STFTLoss) (x y : Sig) :
    (∀ ls, stft_losses.mapM (fun f => do (← f.forward ext x y).asScalar) = .ok ls →
      stft_losses ≠ [] →
      MultiResolutionSTFTLoss.forward ext stft_losses x y =
        .ok (ls.sum / (stft_losses.length : ℚ))) ∧
    (∀ (c : STFTLoss) (q : ℚ), c.output = "loss" →
      STFTLoss.lossValue ext c x y = .ok q →
      MultiResolutionSTFTLoss.forward ext [c] x y = .ok q) ∧
    (∀ (fs hs wl : ℕ) (window : String) (w_sc w_mag w_phs w_real w_imag : ℚ)
      (sr : Option ℚ) (scale : Option String) (nb : Option ℕ) (si : Bool),
      MultiResolutionSTFTLoss.init ext [fs] [hs] [wl] window w_sc w_mag w_phs
          w_real w_imag sr scale nb si =
        (STFTLoss.init ext fs hs wl window w_sc w_mag w_phs w_real w_imag
          sr scale nb si defaultEps "loss" "mean").map (fun c => [c])) := by
  refine ⟨?_, ?_, ?_⟩
  · intro ls hls hne
    have hlen : stft_losses.length ≠ 0 := by
      intro h0
      exact hne (List.length_eq_zero.mp h0)
    unfold MultiResolutionSTFTLoss.forward
    rw [hls, exbind_ok]
    rw [if_neg hlen, foldl_add, zero_add]
    rfl
  · intro c q hout hq
    have hf := STFTLoss.forward_loss_mode ext c x y hout q hq
    unfold MultiResolutionSTFTLoss.forward
    simp [List.mapM.loop, hf, FwdResult.asScalar, foldl_add, Except.map]
    rfl
  · intro fs hs wl window w_sc w_mag w_phs w_real w_imag sr scale nb si
    unfold MultiResolutionSTFTLoss.init
    simp only [List.length_cons, List.length_nil, and_self, if_true]
    cases h : STFTLoss.init ext fs hs wl window w_sc w_mag w_phs w_real w_imag
        sr scale nb si defaultEps "loss" "mean" with
    | error e => simp [List.mapM.loop, h, Except.map]
    | ok c => simp [List.mapM.loop, h, Except.map]

/-- C7 witness: singleton ensemble reproducing the member's value. -/
theorem MultiResolutionSTFTLoss.forward_average_witness :
    MultiResolutionSTFTLoss.forward extW [cfgW] [[1]] [[1]] = .ok 0 :=
  (MultiResolutionSTFTLoss.forward_average extW [cfgW] [[1]] [[1]]).2.1 cfgW 0
    (by decide) (by decide)

/-- Helper: binding a failed `Except` value. -/
lemma exbind_err {ε α β : Type} (e : ε) (f : α → Except ε β) :
    (do let v ← (Except.error e : Except ε α); f v) = .error e := rfl

/-- Helper: the only raises in `STFTLoss.__init__` are the mel / chroma
asserts and the `None`-comparison `TypeError`. -/
lemma STFTLoss.init_error_cases (ext : Ext) (fft_size hop_size win_length : ℕ)
    (window : String) (w_sc w_mag w_phs w_real w_imag : ℚ)
    (sample_rate : Option ℚ) (scale : Option String) (n_bins : Option ℕ)
    (scale_invariance : Bool) (eps : ℚ) (output reduction : String) (e : PyErr)
    (h : STFTLoss.init ext fft_size hop_size win_length window w_sc w_mag w_phs
      w_real w_imag sample_rate scale n_bins scale_invariance eps output
      reduction = .error e) :
    e = .assertionError ∨ e = .typeError := by
  unfold STFTLoss.init at h
  repeat' split at h
  all_goals
    first
    | exact Except.noConfusion h
    | (have h' : (Except.error PyErr.assertionError : Except PyErr STFTLoss) =
          .error e := h
       injection h' with h1
       exact Or.inl h1.symm)
    | (have h' : (Except.error PyErr.typeError : Except PyErr STFTLoss) =
          .error e := h
       injection h' with h1
       exact Or.inr h1.symm)

/-- Helper: the only raise in the scale-invariance block is the broadcast
shape mismatch. -/
lemma scaleInvTarget_error_cases (a b : T3) (e : PyErr)
    (h : scaleInvTarget a b = .error e) : e = .shapeMismatch := by
  unfold scaleInvTarget broadcastMulAlpha at h
  split at h
  · exact Except.noConfusion h
  · injection h with h1
    exact h1.symm

/-- Helper: a bind of the scale-invariance step followed by a pure
continuation can only fail with the broadcast shape mismatch. -/
lemma bind_scaleInv_error (A B : T3) (k : T3 → Except PyErr (T3 × T3))
    (e : PyErr) (h : (scaleInvTarget A B >>= k) = .error e)
    (hk : ∀ z, ∃ v, k z = .ok v) : e = .shapeMismatch := by
  cases hal : scaleInvTarget A B with
  | error e0 =>
    rw [hal] at h
    have h' : (Except.error e0 : Except PyErr (T3 × T3)) = .error e := h
    injection h' with h1
    exact h1 ▸ scaleInvTarget_error_cases A B e0 hal
  | ok z =>
    rw [hal] at h
    obtain ⟨v, hv⟩ := hk z
    have h' : k z = .error e := h
    rw [hv] at h'
    exact Except.noConfusion h'

/-- Helper: the magnitude pipeline of `STFTLoss.forward` can only raise the
missing-filterbank `AttributeError` or the broadcast shape mismatch. -/
lemma STFTLoss.procMags_error_cases (ext : Ext) (self : STFTLoss) (x y : Sig)
    (e : PyErr) (h : self.procMags ext x y = .error e) :
    e = .attributeErrorFb ∨ e = .shapeMismatch := by
  unfold STFTLoss.procMags at h
  repeat' split at h
  all_goals
    first
    | exact Except.noConfusion h
    | (have h' : (Except.error PyErr.attributeErrorFb : Except PyErr (T3 × T3))
          = .error e := h
       injection h' with h1
       exact Or.inl h1.symm)
    | skip
  all_goals
    exact Or.inr (bind_scaleInv_error _ _ _ e h (fun z => ⟨_, rfl⟩))

/-- Helper: the raises of `STFTLoss.lossValue` all come from the magnitude
pipeline. -/
lemma STFTLoss.lossValue_error_cases (ext : Ext) (self : STFTLoss) (x y : Sig)
    (e : PyErr) (h : self.lossValue ext x y = .error e) :
    e = .attributeErrorFb ∨ e = .shapeMismatch := by
  unfold STFTLoss.lossValue at h
  cases hp : self.procMags ext x y with
  | error e0 =>
    rw [hp] at h
    have h' : (Except.error e0 : Except PyErr ℚ) = .error e := h
    injection h' with h1
    exact h1 ▸ STFTLoss.procMags_error_cases ext self x y e0 hp
  | ok pr =>
    rw [hp] at h
    exact Except.noConfusion h

/-- Helper: the raises of `STFTLoss.forward` are the pipeline raises plus
the unbound `phs_loss` name of the `full` branch. -/
lemma STFTLoss.forward_error_cases (ext : Ext) (self : STFTLoss) (x y : Sig)
    (e : PyErr) (h : self.forward ext x y = .error e) :
    e = .attributeErrorFb ∨ e = .shapeMismatch ∨ e = .nameErrorPhsLoss := by
  unfold STFTLoss.forward at h
  cases hl : self.lossValue ext x y with
  | error e0 =>
    rw [hl] at h
    have h' : (Except.error e0 : Except PyErr FwdResult) = .error e := h
    injection h' with h1
    rcases h1 ▸ STFTLoss.lossValue_error_cases ext self x y e0 hl with h2 | h2
    · exact Or.inl h2
    · exact Or.inr (Or.inl h2)
  | ok q =>
    rw [hl] at h
    by_cases h1 : self.output = "loss"
    · rw [exbind_ok] at h
      rw [if_pos h1] at h
      exact Except.noConfusion h
    · by_cases h2 : self.output = "full"
      · rw [exbind_ok, if_neg h1, if_pos h2] at h
        have h' : (Except.error PyErr.nameErrorPhsLoss : Except PyErr FwdResult)
            = .error e := h
        injection h' with h3
        exact Or.inr (Or.inr h3.symm)
      · rw [exbind_ok, if_neg h1, if_neg h2] at h
        exact Except.noConfusion h

/-- Helper: an error of `List.mapM.loop` comes from one of the element
computations. -/
lemma mapM_loop_error_imp {α β : Type} (f : α → Except PyErr β)
    (P : PyErr → Prop) (hf : ∀ a e, f a = .error e → P e) (l : List α) :
    ∀ (acc : List β) (e : PyErr), List.mapM.loop f l acc = .error e → P e := by
  induction l with
  | nil =>
    intro acc e h
    exact Except.noConfusion (show (Except.ok acc.reverse : Except PyErr _)
      = .error e from h)
  | cons a as ih =>
    intro acc e h
    simp only [List.mapM.loop] at h
    cases hfa : f a with
    | error e0 =>
      rw [hfa] at h
      have h' : (Except.error e0 : Except PyErr (List β)) = .error e := h
      injection h' with h1
      exact h1 ▸ hf a e0 hfa
    | ok b =>
      rw [hfa] at h
      exact ih (b :: acc) e h

/-- Helper: an error of the member-evaluation loop is a member raise or the
tuple/None `TypeError` of the scalar extraction. -/
lemma members_mapM_error_cases (ext : Ext) (x y : Sig) (ms : List STFTLoss)
    (e : PyErr)
    (h : ms.mapM (fun f => do (← f.forward ext x y).asScalar) = .error e) :
    e = .attributeErrorFb ∨ e = .shapeMismatch ∨ e = .nameErrorPhsLoss ∨
      e = .typeError := by
  have hf : ∀ (c : STFTLoss) (e0 : PyErr),
      (do (← c.forward ext x y).asScalar) = Except.error e0 →
      e0 = .attributeErrorFb ∨ e0 = .shapeMismatch ∨ e0 = .nameErrorPhsLoss ∨
        e0 = .typeError := by
    intro c e0 hc
    cases hfw : c.forward ext x y with
    | error e1 =>
      rw [hfw] at hc
      have h' : (Except.error e1 : Except PyErr ℚ) = .error e0 := hc
      injection h' with h1
      rcases h1 ▸ STFTLoss.forward_error_cases ext c x y e1 hfw with h2 | h2 | h2
      · exact Or.inl h2
      · exact Or.inr (Or.inl h2)
      · exact Or.inr (Or.inr (Or.inl h2))
    | ok r =>
      rw [hfw] at hc
      cases r with
      | scalarOut q =>
        exact Except.noConfusion (show (Except.ok q : Except PyErr ℚ)
          = .error e0 from hc)
      | noneOut =>
        have h' : (Except.error PyErr.typeError : Except PyErr ℚ)
            = .error e0 := hc
        injection h' with h1
        exact Or.inr (Or.inr (Or.inr h1.symm))
  exact mapM_loop_error_imp _ _ hf ms [] e h

/-- Helper: a failed resampling iteration fails inside `STFTLoss.__init__`. -/
lemma randomize_go_error_cases (ext : Ext) (p : RRParams)
    (draws : ℕ → RandDraw) :
    ∀ (l : List ℕ) (acc : List STFTLoss) (e : PyErr),
      (RandomResolutionSTFTLoss.randomize_losses.go ext p draws l acc).2
        = some e →
      e = .assertionError ∨ e = .typeError := by
  intro l
  induction l with
  | nil =>
    intro acc e h
    exact Option.noConfusion (show (none : Option PyErr) = some e from h)
  | cons n ns ih =>
    intro acc e h
    unfold RandomResolutionSTFTLoss.randomize_losses.go at h
    cases hc : RandomResolutionSTFTLoss.sampleOne ext p (draws n) with
    | ok c =>
      rw [hc] at h
      exact ih (acc ++ [c]) e h
    | error e0 =>
      rw [hc] at h
      have h' : (some e0 : Option PyErr) = some e := h
      injection h' with h1
      subst h1
      unfold RandomResolutionSTFTLoss.sampleOne at hc
      exact STFTLoss.init_error_cases ext _ _ _ _ _ _ _ _ _ _ _ _ _ _ _ _ e0 hc

/-- Helper: a failed construction-time or call-time resample fails inside
`STFTLoss.__init__`. -/
lemma randomize_losses_error_cases (ext : Ext) (p : RRParams)
    (draws : ℕ → RandDraw) (e : PyErr)
    (h : (RandomResolutionSTFTLoss.randomize_losses ext p draws).2 = some e) :
    e = .assertionError ∨ e = .typeError := by
  unfold RandomResolutionSTFTLoss.randomize_losses at h
  exact randomize_go_error_cases ext p draws _ [] e h

/-- Helper: the member-evaluation tail raises only member errors or the
empty-list division. -/
lemma evalMembers_error_cases (ext : Ext) (st : RRState) (ms : List STFTLoss)
    (input target : Sig) (e : PyErr)
    (h : (RandomResolutionSTFTLoss.evalMembers ext st ms input target).2
      = .error e) :
    e = .attributeErrorFb ∨ e = .shapeMismatch ∨ e = .nameErrorPhsLoss ∨
      e = .typeError ∨ e = .zeroDivisionError := by
  unfold RandomResolutionSTFTLoss.evalMembers at h
  cases hm : ms.mapM (fun f => do (← f.forward ext input target).asScalar) with
  | error e0 =>
    rw [hm] at h
    have h' : (Except.error e0 : Except PyErr ℚ) = .error e := h
    injection h' with h1
    rcases h1 ▸ members_mapM_error_cases ext input target ms e0 hm with
      h2 | h2 | h2 | h2
    · exact Or.inl h2
    · exact Or.inr (Or.inl h2)
    · exact Or.inr (Or.inr (Or.inl h2))
    · exact Or.inr (Or.inr (Or.inr (Or.inl h2)))
  | ok ls =>
    rw [hm] at h
    by_cases hl : ms.length = 0
    · have h' : (Except.error PyErr.zeroDivisionError : Except PyErr ℚ)
          = .error e := by
        rw [← h]
        show _ = (if ms.length = 0 then _ else _ : RRState × Except PyErr ℚ).2
        rw [if_pos hl]
      injection h' with h1
      exact Or.inr (Or.inr (Or.inr (Or.inr h1.symm)))
    · have h' : (Except.ok (List.foldl (fun a b => a + b) 0 ls / (ms.length : ℚ))
          : Except PyErr ℚ) = .error e := by
        rw [← h]
        show _ = (if ms.length = 0 then _ else _ : RRState × Except PyErr ℚ).2
        rw [if_neg hl]
      exact Except.noConfusion h'

/-- C5: a forward call raises the length-validation `ValueError`, naming the
offending signal and its length, exactly when the input or target length is
`≤ max_fft_size` (input checked first); when both lengths exceed
`max_fft_size` no length `ValueError` can be produced, so length
`max_fft_size` raises and length `max_fft_size + 1` does not. -/
theorem RandomResolutionSTFTLoss.length_validation (ext : Ext) (p : RRParams)
    (draws : ℕ → RandDraw) (st : RRState) (input target : Sig) :
    (sizeLast input ≤ p.max_fft_size →
      (RandomResolutionSTFTLoss.forward ext p draws st input target).2 =
        .error (.valueErrorInput (sizeLast input) p.max_fft_size)) ∧
    (p.max_fft_size < sizeLast input → sizeLast target ≤ p.max_fft_size →
      (RandomResolutionSTFTLoss.forward ext p draws st input target).2 =
        .error (.valueErrorTarget (sizeLast target) p.max_fft_size)) ∧
    (p.max_fft_size < sizeLast input → p.max_fft_size < sizeLast target →
      ∀ l m,
        (RandomResolutionSTFTLoss.forward ext p draws st input target).2 ≠
          .error (.valueErrorInput l m) ∧
        (RandomResolutionSTFTLoss.forward ext p draws st input target).2 ≠
          .error (.valueErrorTarget l m)) := by
  refine ⟨?_, ?_, ?_⟩
  · intro h
    unfold RandomResolutionSTFTLoss.forward
    rw [if_pos h]
  · intro h1 h2
    unfold RandomResolutionSTFTLoss.forward
    rw [if_neg (not_le.mpr h1), if_pos h2]
  · intro h1 h2 l m
    have key : ∀ e,
        (RandomResolutionSTFTLoss.forward ext p draws st input target).2 =
          .error e →
        e ≠ .valueErrorInput l m ∧ e ≠ .valueErrorTarget l m := by
      intro e he
      unfold RandomResolutionSTFTLoss.forward at he
      rw [if_neg (not_le.mpr h1), if_neg (not_le.mpr h2)] at he
      by_cases hcnd : st.nforwards % p.randomize_rate = 0
      · rw [if_pos hcnd] at he
        rcases hR : RandomResolutionSTFTLoss.randomize_losses ext p draws with
          ⟨ms, err?⟩
        rw [hR] at he
        cases err? with
        | some e0 =>
          have h' : (Except.error e0 : Except PyErr ℚ) = .error e := he
          injection h' with h3
          have hcls := randomize_losses_error_cases ext p draws e0
            (by rw [hR])
          rcases h3 ▸ hcls with rfl | rfl
          · exact ⟨fun hc => PyErr.noConfusion hc, fun hc => PyErr.noConfusion hc⟩
          · exact ⟨fun hc => PyErr.noConfusion hc, fun hc => PyErr.noConfusion hc⟩
        | none =>
          have hcls := evalMembers_error_cases ext st ms input target e he
          rcases hcls with rfl | rfl | rfl | rfl | rfl <;>
            exact ⟨fun hc => PyErr.noConfusion hc, fun hc => PyErr.noConfusion hc⟩
      · rw [if_neg hcnd] at he
        have hcls := evalMembers_error_cases ext st st.stft_losses input target
          e he
        rcases hcls with rfl | rfl | rfl | rfl | rfl <;>
          exact ⟨fun hc => PyErr.noConfusion hc, fun hc => PyErr.noConfusion hc⟩
    constructor
    · intro hc
      exact ((key _ hc).1) rfl
    · intro hc
      exact ((key _ hc).2) rfl

/-- C5 witness: length exactly `max_fft_size = 4` raises the input
`ValueError` carrying the length; lengths `5 = max_fft_size + 1` raise no
length `ValueError`. -/
theorem RandomResolutionSTFTLoss.length_validation_witness :
    (RandomResolutionSTFTLoss.forward extW pW drawsW ⟨1, []⟩
        [[1, 1, 1, 1]] [[1, 1, 1, 1]]).2 =
      .error (.valueErrorInput 4 4) ∧
    (RandomResolutionSTFTLoss.forward extW pW drawsW ⟨1, []⟩
        [[1, 0, 0, 0, 0]] [[1, 0, 0, 0, 0]]).2 ≠
      .error (.valueErrorInput 5 4) ∧
    (RandomResolutionSTFTLoss.forward extW pW drawsW ⟨1, []⟩
        [[1, 0, 0, 0, 0]] [[1, 0, 0, 0, 0]]).2 ≠
      .error (.valueErrorTarget 5 4) := by
  refine ⟨?_, ?_⟩
  · exact (RandomResolutionSTFTLoss.length_validation extW pW drawsW ⟨1, []⟩
      [[1, 1, 1, 1]] [[1, 1, 1, 1]]).1 (by decide)
  · exact (RandomResolutionSTFTLoss.length_validation extW pW drawsW ⟨1, []⟩
      [[1, 0, 0, 0, 0]] [[1, 0, 0, 0, 0]]).2.2 (by decide) (by decide) 5 4

/-- Helper: a successful member-evaluation tail increments `nforwards` by
exactly one and installs exactly the member list it was given. -/
lemma evalMembers_ok_state (ext : Ext) (st : RRState) (ms : List STFTLoss)
    (input target : Sig) (st' : RRState) (q : ℚ)
    (h : RandomResolutionSTFTLoss.evalMembers ext st ms input target
      = (st', .ok q)) :
    st' = { nforwards := st.nforwards + 1, stft_losses := ms } := by
  unfold RandomResolutionSTFTLoss.evalMembers at h
  split at h
  · exact Except.noConfusion (show (Except.error _ : Except PyErr ℚ) = .ok q
      from congrArg Prod.snd h)
  · split at h
    · exact Except.noConfusion (show (Except.error _ : Except PyErr ℚ) = .ok q
        from congrArg Prod.snd h)
    · injection h with h1 h2
      exact h1.symm

/-- C6: every successful forward call increments `nforwards` by exactly one
(and a failed one leaves it, so the counter never decreases and is never
reset); the member list is replaced by the freshly sampled one exactly when
`nforwards % randomize_rate == 0` at the start of the call, and kept
otherwise; and construction starts at `nforwards = 0` with a fresh sample
installed. -/
theorem RandomResolutionSTFTLoss.state_update (ext : Ext) (p : RRParams)
    (draws : ℕ → RandDraw) (st : RRState) (input target : Sig) :
    (∀ st' q,
      RandomResolutionSTFTLoss.forward ext p draws st input target
        = (st', .ok q) →
      st'.nforwards = st.nforwards + 1 ∧
      (st.nforwards % p.randomize_rate = 0 →
        RandomResolutionSTFTLoss.randomize_losses ext p draws
          = (st'.stft_losses, none)) ∧
      (¬ st.nforwards % p.randomize_rate = 0 →
        st'.stft_losses = st.stft_losses)) ∧
    (∀ st0, RandomResolutionSTFTLoss.init ext p draws = .ok st0 →
      st0.nforwards = 0 ∧
      RandomResolutionSTFTLoss.randomize_losses ext p draws
        = (st0.stft_losses, none)) := by
  constructor
  · intro st' q h
    unfold RandomResolutionSTFTLoss.forward at h
    split at h
    · exact Except.noConfusion (show (Except.error _ : Except PyErr ℚ) = .ok q
        from congrArg Prod.snd h)
    · split at h
      · exact Except.noConfusion (show (Except.error _ : Except PyErr ℚ)
          = .ok q from congrArg Prod.snd h)
      · split at h
        · rename_i hcnd
          split at h
          · exact Except.noConfusion (show (Except.error _ : Except PyErr ℚ)
              = .ok q from congrArg Prod.snd h)
          · rename_i ms heq
            have hst := evalMembers_ok_state ext st ms input target st' q h
            subst hst
            exact ⟨rfl, fun _ => heq, fun hc => absurd hcnd hc⟩
        · rename_i hcnd
          have hst := evalMembers_ok_state ext st st.stft_losses input target
            st' q h
          subst hst
          exact ⟨rfl, fun hc => absurd hc hcnd, fun _ => rfl⟩
  · intro st0 h
    unfold RandomResolutionSTFTLoss.init at h
    split at h
    · exact Except.noConfusion h
    · rename_i ms heq
      injection h with h1
      subst h1
      exact ⟨rfl, heq⟩

/-- C6 witness: concrete successful forward call from the constructed state;
the counter goes from `0` to `1` and the freshly sampled member list is
installed. -/
theorem RandomResolutionSTFTLoss.state_update_witness :
    (⟨1, [cfgW]⟩ : RRState).nforwards = (⟨0, []⟩ : RRState).nforwards + 1 ∧
    ((⟨0, []⟩ : RRState).nforwards % pW.randomize_rate = 0 →
      RandomResolutionSTFTLoss.randomize_losses extW pW drawsW
        = ((⟨1, [cfgW]⟩ : RRState).stft_losses, none)) ∧
    (¬ (⟨0, []⟩ : RRState).nforwards % pW.randomize_rate = 0 →
      (⟨1, [cfgW]⟩ : RRState).stft_losses = (⟨0, []⟩ : RRState).stft_losses) :=
  (RandomResolutionSTFTLoss.state_update extW pW drawsW ⟨0, []⟩
    [[1, 0, 0, 0, 0]] [[1, 0, 0, 0, 0]]).1 ⟨1, [cfgW]⟩ 0 (by decide)

/-- Every entry of the 3-D tensor is positive. -/
def posEntries3 (x : T3) : Prop := ∀ m ∈ x, ∀ r ∈ m, ∀ q ∈ r, 0 < q

/-- Every entry of the 3-D tensor is zero. -/
def AllZero3 (x : T3) : Prop := ∀ m ∈ x, ∀ r ∈ m, ∀ q ∈ r, q = 0

/-- Positionwise agreement of two rows on their overlap. -/
def zipEq1 (r s : List ℚ) : Bool := (List.zipWith (fun p q => p == q) r s).all id

/-- Positionwise agreement of two matrices on their overlap. -/
def zipEq2 (m n : T2) : Bool := (List.zipWith zipEq1 m n).all id

/-- Positionwise agreement of two 3-D tensors on their overlap. -/
def zipEq3 (a b : T3) : Bool := (List.zipWith zipEq2 a b).all id

/-- Per-batch-slice sum of squared entries, the denominator of `alpha`. -/
def sumSq2 (mb : T2) : ℚ := sum2 (mb.map (fun r => r.map (fun q => q * q)))

lemma sum_zipWith_diag_zero (g : ℚ → ℚ → ℚ) (hg : ∀ a, g a a = 0)
    (r : List ℚ) : ∀ s : List ℚ, zipEq1 r s = true →
    (List.zipWith g r s).sum = 0 := by
  induction r with
  | nil => intro s _; simp
  | cons p r ih =>
    intro s h
    cases s with
    | nil => simp
    | cons q s =>
      simp only [zipEq1, List.zipWith_cons_cons, List.all_cons,
        Bool.and_eq_true, id_eq, beq_iff_eq] at h
      obtain ⟨h1, h2⟩ := h
      subst h1
      simp only [List.zipWith_cons_cons, List.sum_cons, hg]
      rw [ih s h2, add_zero]

lemma sum2_zipWith_diag_zero (g : ℚ → ℚ → ℚ) (hg : ∀ a, g a a = 0)
    (m : T2) : ∀ n : T2, zipEq2 m n = true →
    sum2 (List.zipWith (fun r s => List.zipWith g r s) m n) = 0 := by
  induction m with
  | nil => intro n _; simp [sum2]
  | cons r m ih =>
    intro n h
    cases n with
    | nil => simp [sum2]
    | cons s n =>
      simp only [zipEq2, List.zipWith_cons_cons, List.all_cons,
        Bool.and_eq_true, id_eq] at h
      obtain ⟨h1, h2⟩ := h
      simp only [List.zipWith_cons_cons, sum2, List.map_cons, List.sum_cons]
      have e1 := sum_zipWith_diag_zero g hg r s h1
      have e2 := ih n h2
      simp only [sum2] at e2
      rw [e1, e2, add_zero]

lemma sum3_map2q_diag_zero (g : ℚ → ℚ → ℚ) (hg : ∀ a, g a a = 0)
    (a : T3) : ∀ b : T3, zipEq3 a b = true → sum3 (map2q g a b) = 0 := by
  induction a with
  | nil => intro b _; simp [sum3, map2q]
  | cons m a ih =>
    intro b h
    cases b with
    | nil => simp [sum3, map2q]
    | cons n b =>
      simp only [zipEq3, List.zipWith_cons_cons, List.all_cons,
        Bool.and_eq_true, id_eq] at h
      obtain ⟨h1, h2⟩ := h
      simp only [map2q, List.zipWith_cons_cons, sum3, List.map_cons,
        List.sum_cons]
      have e1 := sum2_zipWith_diag_zero g hg m n h1
      have e2 := ih b h2
      simp only [sum3, map2q] at e2
      rw [e1, e2, add_zero]

lemma zipEq1_refl (r : List ℚ) : zipEq1 r r = true := by
  induction r with
  | nil => rfl
  | cons p r ih =>
    have ih' := ih
    simp only [zipEq1] at ih'
    simp [zipEq1, List.all_cons, ih']

lemma zipEq2_refl (m : T2) : zipEq2 m m = true := by
  induction m with
  | nil => rfl
  | cons r m ih =>
    simp only [zipEq2, List.zipWith_cons_cons, List.all_cons,
      Bool.and_eq_true, id_eq] at ih ⊢
    exact ⟨zipEq1_refl r, ih⟩

lemma zipEq3_refl (a : T3) : zipEq3 a a = true := by
  induction a with
  | nil => rfl
  | cons m a ih =>
    simp only [zipEq3, List.zipWith_cons_cons, List.all_cons,
      Bool.and_eq_true, id_eq] at ih ⊢
    exact ⟨zipEq2_refl m, ih⟩

lemma zipEq1_symm (r : List ℚ) : ∀ s, zipEq1 r s = true → zipEq1 s r = true := by
  induction r with
  | nil => intro s _; cases s <;> rfl
  | cons p r ih =>
    intro s h
    cases s with
    | nil => rfl
    | cons q s =>
      simp only [zipEq1, List.zipWith_cons_cons, List.all_cons,
        Bool.and_eq_true, id_eq, beq_iff_eq] at h ⊢
      exact ⟨h.1.symm, ih s h.2⟩

lemma zipEq2_symm (m : T2) : ∀ n, zipEq2 m n = true → zipEq2 n m = true := by
  induction m with
  | nil => intro n _; cases n <;> rfl
  | cons r m ih =>
    intro n h
    cases n with
    | nil => rfl
    | cons s n =>
      simp only [zipEq2, List.zipWith_cons_cons, List.all_cons,
        Bool.and_eq_true, id_eq] at h ⊢
      exact ⟨zipEq1_symm r s h.1, ih n h.2⟩

lemma zipEq3_symm (a : T3) : ∀ b, zipEq3 a b = true → zipEq3 b a = true := by
  induction a with
  | nil => intro b _; cases b <;> rfl
  | cons m a ih =>
    intro b h
    cases b with
    | nil => rfl
    | cons n b =>
      simp only [zipEq3, List.zipWith_cons_cons, List.all_cons,
        Bool.and_eq_true, id_eq] at h ⊢
      exact ⟨zipEq2_symm m n h.1, ih b h.2⟩

lemma zipEq1_of_getD (r : List ℚ) : ∀ s : List ℚ,
    (∀ i, i < r.length → i < s.length → r.getD i 0 = s.getD i 0) →
    zipEq1 r s = true := by
  induction r with
  | nil => intro s _; rfl
  | cons p r ih =>
    intro s h
    cases s with
    | nil => rfl
    | cons q s =>
      simp only [zipEq1, List.zipWith_cons_cons, List.all_cons,
        Bool.and_eq_true, id_eq, beq_iff_eq]
      refine ⟨h 0 (by simp) (by simp), ih s ?_⟩
      intro i h1 h2
      exact h (i + 1) (by simpa using h1) (by simpa using h2)

lemma zipEq2_of_getD (m : T2) : ∀ n : T2,
    (∀ i, i < m.length → i < n.length →
      zipEq1 (m.getD i []) (n.getD i []) = true) →
    zipEq2 m n = true := by
  induction m with
  | nil => intro n _; rfl
  | cons r m ih =>
    intro n h
    cases n with
    | nil => rfl
    | cons s n =>
      simp only [zipEq2, List.zipWith_cons_cons, List.all_cons,
        Bool.and_eq_true, id_eq]
      refine ⟨h 0 (by simp) (by simp), ih n ?_⟩
      intro i h1 h2
      exact h (i + 1) (by simpa using h1) (by simpa using h2)

lemma zipEq3_of_getD (a : T3) : ∀ b : T3,
    (∀ i, i < a.length → i < b.length →
      zipEq2 (a.getD i []) (b.getD i []) = true) →
    zipEq3 a b = true := by
  induction a with
  | nil => intro b _; rfl
  | cons m a ih =>
    intro b h
    cases b with
    | nil => rfl
    | cons n b =>
      simp only [zipEq3, List.zipWith_cons_cons, List.all_cons,
        Bool.and_eq_true, id_eq]
      refine ⟨h 0 (by simp) (by simp), ih b ?_⟩
      intro i h1 h2
      exact h (i + 1) (by simpa using h1) (by simpa using h2)

lemma getD_range_map {α : Type} (n : ℕ) (g : ℕ → α) (d : α) (i : ℕ)
    (hi : i < n) : ((List.range n).map g).getD i d = g i := by
  rw [List.getD_eq_getElem?_getD, List.getElem?_map,
    List.getElem?_range hi]
  rfl

lemma getD_lt {α : Type} (l : List α) (d : α) (i : ℕ) (h : i < l.length) :
    l.getD i d = l[i] := by
  rw [List.getD_eq_getElem?_getD, List.getElem?_eq_getElem h]
  rfl

lemma getD_ge {α : Type} (l : List α) (d : α) (i : ℕ) (h : l.length ≤ i) :
    l.getD i d = d := by
  rw [List.getD_eq_getElem?_getD, List.getElem?_eq_none h]
  rfl

lemma getD_pos (r : List ℚ) (t : ℕ) (h : ∀ q ∈ r, 0 < q) (ht : t < r.length) :
    0 < r.getD t 0 := by
  rw [getD_lt r 0 t ht]
  exact h _ (List.getElem_mem ht)

lemma getD_nonneg (r : List ℚ) (t : ℕ) (h : ∀ q ∈ r, 0 ≤ q) :
    0 ≤ r.getD t 0 := by
  by_cases ht : t < r.length
  · rw [getD_lt r 0 t ht]
    exact h _ (List.getElem_mem ht)
  · rw [getD_ge r 0 t (le_of_not_lt ht)]

lemma getD_zero (r : List ℚ) (t : ℕ) (h : ∀ q ∈ r, q = 0) :
    r.getD t 0 = 0 := by
  by_cases ht : t < r.length
  · rw [getD_lt r 0 t ht]
    exact h _ (List.getElem_mem ht)
  · rw [getD_ge r 0 t (le_of_not_lt ht)]

lemma get3_allzero (m : T3) (hz : AllZero3 m) (b f t : ℕ) :
    get3 m b f t = 0 := by
  unfold get3
  by_cases hb : b < m.length
  · rw [getD_lt m [] b hb]
    have hmb := hz _ (List.getElem_mem hb)
    by_cases hf : f < m[b].length
    · rw [getD_lt _ [] f hf]
      exact getD_zero _ _ (hmb _ (List.getElem_mem hf))
    · rw [getD_ge _ [] f (le_of_not_lt hf)]
      rfl
  · rw [getD_ge m [] b (le_of_not_lt hb)]
    rfl

lemma alphaOf_self_eq (m : T3) :
    alphaOf m m = m.map (fun mb => sumSq2 mb / sumSq2 mb) := by
  unfold alphaOf
  rw [List.zipWith_same]
  apply List.map_congr_left
  intro mb _
  congr 1
  rw [List.zipWith_same]
  unfold sumSq2
  congr 1
  apply List.map_congr_left
  intro r _
  rw [List.zipWith_same]

lemma alphaOf_self_getD_one (m : T3) (hS : ∀ b ∈ m, sumSq2 b ≠ 0) (j : ℕ)
    (hj : j < m.length) : (alphaOf m m).getD j 0 = 1 := by
  rw [alphaOf_self_eq]
  have hlen : j < (m.map (fun mb => sumSq2 mb / sumSq2 mb)).length := by
    simpa using hj
  rw [getD_lt _ 0 j hlen, List.getElem_map]
  exact div_self (hS _ (List.getElem_mem hj))

lemma sumSq2_cases (m : T3) (hrect : Rect3 m) (hpos : posEntries3 m) :
    (∀ b ∈ m, sumSq2 b ≠ 0) ∨ AllZero3 m := by
  by_cases h1 : dim1 m = 0
  · right
    intro mb hmb r hr q _
    have hlen := (hrect mb hmb).1
    rw [h1] at hlen
    rw [List.length_eq_zero.mp hlen] at hr
    exact absurd hr (List.not_mem_nil r)
  · by_cases h2 : dim2 m = 0
    · right
      intro mb hmb r hr q hq
      have hr2 := (hrect mb hmb).2 r hr
      rw [h2] at hr2
      rw [List.length_eq_zero.mp hr2] at hq
      exact absurd hq (List.not_mem_nil q)
    · left
      intro b hb
      have hblen : b.length = dim1 m := (hrect b hb).1
      have hbne : b ≠ [] := by
        intro hnil
        rw [hnil] at hblen
        exact h1 hblen.symm
      obtain ⟨r0, hr0⟩ := List.exists_mem_of_ne_nil b hbne
      have hr0len : r0.length = dim2 m := (hrect b hb).2 r0 hr0
      have hr0ne : r0 ≠ [] := by
        intro hnil
        rw [hnil] at hr0len
        exact h2 hr0len.symm
      obtain ⟨q0, hq0⟩ := List.exists_mem_of_ne_nil r0 hr0ne
      have hq0pos : 0 < q0 := hpos b hb r0 hr0 q0 hq0
      have hrow : 0 < (r0.map (fun q => q * q)).sum := by
        have hmem : q0 * q0 ∈ r0.map (fun q => q * q) :=
          List.mem_map_of_mem _ hq0
        have hnn : ∀ z ∈ r0.map (fun q => q * q), 0 ≤ z := by
          intro z hz
          obtain ⟨w, _, rfl⟩ := List.mem_map.mp hz
          exact mul_self_nonneg w
        exact lt_of_lt_of_le (mul_pos hq0pos hq0pos)
          (List.single_le_sum hnn _ hmem)
      have htot : 0 < sumSq2 b := by
        unfold sumSq2 sum2
        have hmem : (r0.map (fun q => q * q)).sum ∈
            (b.map (fun r => r.map (fun q => q * q))).map List.sum :=
          List.mem_map_of_mem _ (List.mem_map_of_mem _ hr0)
        have hnn : ∀ z ∈ (b.map (fun r => r.map (fun q => q * q))).map
            List.sum, 0 ≤ z := by
          intro z hz
          obtain ⟨w, hw, rfl⟩ := List.mem_map.mp hz
          obtain ⟨r, _, rfl⟩ := List.mem_map.mp hw
          apply List.sum_nonneg
          intro u hu
          obtain ⟨v, _, rfl⟩ := List.mem_map.mp hu
          exact mul_self_nonneg v
        exact lt_of_lt_of_le hrow (List.single_le_sum hnn _ hmem)
      exact ne_of_gt htot

/-- Core lemma for the self-comparison case: rescaling a rectangular tensor
against itself either fails or returns a tensor that agrees with the
original everywhere the metrics look, provided every batch slice has a
nonzero sum of squares or the tensor is identically zero. -/
lemma scaleInvTarget_self_agrees (m : T3) (hrect : Rect3 m)
    (hcase : (∀ b ∈ m, sumSq2 b ≠ 0) ∨ AllZero3 m) :
    ∀ m', scaleInvTarget m m = .ok m' → zipEq3 m m' = true := by
  intro m' h
  unfold scaleInvTarget broadcastMulAlpha at h
  split at h
  case isFalse => exact Except.noConfusion h
  case isTrue hvalid =>
  injection h with h1
  subst h1
  apply zipEq3_of_getD
  intro b hb1 _
  rw [getD_range_map _ _ [] b hb1]
  have hmb : m.getD b [] = m[b] := getD_lt m [] b hb1
  have hlen_b : (m.getD b []).length = dim1 m := by
    rw [hmb]
    exact (hrect _ (List.getElem_mem hb1)).1
  apply zipEq2_of_getD
  intro f hf1 hf2
  rw [List.length_map, List.length_range] at hf2
  rw [getD_range_map _ _ [] f hf2]
  rw [hlen_b] at hf1
  apply zipEq1_of_getD
  intro t ht1 ht2
  rw [List.length_map, List.length_range] at ht2
  rw [getD_range_map _ _ 0 t ht2]
  cases hcase with
  | inr hz =>
    show get3 m b f t = _
    rw [get3_allzero m hz, get3_allzero m hz, zero_mul]
  | inl hS =>
    have hf' : (if dim1 m = 1 then 0 else f) = f := by
      by_cases hd : dim1 m = 1
      · rw [if_pos hd]
        rw [hd] at hf1
        omega
      · rw [if_neg hd]
    have hj : (if m.length = 1 then 0 else f) < m.length := by
      by_cases hB : m.length = 1
      · rw [if_pos hB, hB]
        exact Nat.zero_lt_one
      · rw [if_neg hB]
        rcases hvalid with hv | hv | hv
        · rw [← hv]
          exact hf1
        · rw [hv] at hf1
          omega
        · exact absurd hv hB
    rw [hf', alphaOf_self_getD_one m hS _ hj, mul_one]
    rfl

lemma forall_mem_zipWith {α β γ : Type} (f : α → β → γ) (P : γ → Prop)
    (hP : ∀ a b, P (f a b)) (l1 : List α) :
    ∀ (l2 : List β), ∀ c ∈ List.zipWith f l1 l2, P c := by
  induction l1 with
  | nil => intro l2 c hc; simp at hc
  | cons a l1 ih =>
    intro l2 c hc
    cases l2 with
    | nil => simp at hc
    | cons b l2 =>
      rw [List.zipWith_cons_cons] at hc
      rcases List.mem_cons.mp hc with rfl | hc'
      · exact hP a b
      · exact ih l2 c hc'

lemma posEntries_map2q (g : ℚ → ℚ → ℚ) (hg : ∀ a b, 0 < g a b) (u v : T3) :
    posEntries3 (map2q g u v) := by
  unfold posEntries3 map2q
  intro mb hmb
  refine forall_mem_zipWith _ (fun mb => ∀ r ∈ mb, ∀ q ∈ r, 0 < q) ?_ u v
    mb hmb
  intro a b r hr
  refine forall_mem_zipWith _ (fun r => ∀ q ∈ r, 0 < q) ?_ a b r hr
  intro p s q hq
  exact forall_mem_zipWith _ (fun q => 0 < q) hg p s q hq

lemma dot_nonneg (row : List ℚ) : ∀ (mrows : T2) (t : ℕ),
    (∀ c ∈ row, 0 ≤ c) → (∀ r ∈ mrows, ∀ q ∈ r, 0 ≤ q) →
    0 ≤ (List.zipWith (fun c r => c * r.getD t 0) row mrows).sum := by
  induction row with
  | nil => intro mrows t _ _; simp
  | cons c cs ih =>
    intro mrows t hnn hm
    cases mrows with
    | nil => simp
    | cons r rs =>
      rw [List.zipWith_cons_cons, List.sum_cons]
      have h1 : 0 ≤ c * r.getD t 0 :=
        mul_nonneg (hnn c (List.mem_cons_self c cs))
          (getD_nonneg r t (hm r (List.mem_cons_self r rs)))
      have h2 := ih rs t (fun z hz => hnn z (List.mem_cons_of_mem c hz))
        (fun z hz => hm z (List.mem_cons_of_mem r hz))
      exact add_nonneg h1 h2

lemma dot_pos (row : List ℚ) : ∀ (mrows : T2) (t : ℕ),
    (∀ c ∈ row, 0 ≤ c) →
    (∀ r ∈ mrows, (∀ q ∈ r, 0 < q) ∧ t < r.length) →
    row.length = mrows.length →
    (∃ c ∈ row, 0 < c) →
    0 < (List.zipWith (fun c r => c * r.getD t 0) row mrows).sum := by
  induction row with
  | nil =>
    intro _ _ _ _ _ hex
    obtain ⟨c, hc, _⟩ := hex
    exact absurd hc (List.not_mem_nil c)
  | cons c cs ih =>
    intro mrows t hnn hm hlen hex
    cases mrows with
    | nil => simp at hlen
    | cons r rs =>
      rw [List.zipWith_cons_cons, List.sum_cons]
      have hr := hm r (List.mem_cons_self r rs)
      obtain ⟨z, hz, hzpos⟩ := hex
      rcases List.mem_cons.mp hz with rfl | hz'
      · have h1 : 0 < z * r.getD t 0 :=
          mul_pos hzpos (getD_pos r t hr.1 hr.2)
        have h2 := dot_nonneg cs rs t
          (fun w hw => hnn w (List.mem_cons_of_mem z hw))
          (fun w hw u hu => le_of_lt ((hm w (List.mem_cons_of_mem r hw)).1 u hu))
        exact add_pos_of_pos_of_nonneg h1 h2
      · have h1 : 0 ≤ c * r.getD t 0 :=
          mul_nonneg (hnn c (List.mem_cons_self c cs))
            (le_of_lt (getD_pos r t hr.1 hr.2))
        have h2 := ih rs t (fun w hw => hnn w (List.mem_cons_of_mem c hw))
          (fun w hw => hm w (List.mem_cons_of_mem r hw))
          (by simpa using hlen) ⟨z, hz', hzpos⟩
        exact add_pos_of_nonneg_of_pos h1 h2

lemma matmulFB_uniform_width (m : T3) (hr : Rect3 m) :
    ∀ x ∈ m, ((x : T2).headD []).length = (if dim1 m = 0 then 0 else dim2 m)
    := by
  intro x hx
  have hxlen : x.length = dim1 m := (hr x hx).1
  by_cases hd : dim1 m = 0
  · rw [if_pos hd]
    rw [hd] at hxlen
    rw [List.length_eq_zero.mp hxlen]
    rfl
  · rw [if_neg hd]
    cases x with
    | nil => exact absurd hxlen.symm hd
    | cons r0 rs =>
      show r0.length = dim2 m
      exact (hr _ hx).2 r0 (List.mem_cons_self r0 rs)

lemma matmulFB_rect (fb : Mat) (m : T3) (hr : Rect3 m) :
    Rect3 (matmulFB fb m) := by
  intro sl hsl
  constructor
  · obtain ⟨mb, hmb, rfl⟩ := List.mem_map.mp hsl
    cases m with
    | nil => exact absurd hmb (List.not_mem_nil mb)
    | cons m0 ms =>
      simp [matmulFB, dim1]
  · intro r hrr
    obtain ⟨mb, hmb, rfl⟩ := List.mem_map.mp hsl
    obtain ⟨row, hrow, rfl⟩ := List.mem_map.mp hrr
    rw [List.length_map, List.length_range]
    cases m with
    | nil => exact absurd hmb (List.not_mem_nil mb)
    | cons m0 ms =>
      cases fb with
      | nil => exact absurd hrow (List.not_mem_nil row)
      | cons row0 rows =>
        have h1 := matmulFB_uniform_width (m0 :: ms) hr mb hmb
        have h2 := matmulFB_uniform_width (m0 :: ms) hr m0
          (List.mem_cons_self m0 ms)
        simp only [matmulFB, dim2, List.map_cons, List.headD_cons,
          List.length_map, List.length_range]
        rw [h1, h2]

lemma matmulFB_pos (fb : Mat) (m : T3) (hr : Rect3 m) (hp : posEntries3 m)
    (hfb : ∀ row ∈ fb, (∀ c ∈ row, 0 ≤ c) ∧ row.length = dim1 m ∧
      ∃ c ∈ row, 0 < c) :
    posEntries3 (matmulFB fb m) := by
  intro sl hsl r hrr q hq
  obtain ⟨mb, hmb, rfl⟩ := List.mem_map.mp hsl
  obtain ⟨row, hrow, rfl⟩ := List.mem_map.mp hrr
  obtain ⟨t, ht, rfl⟩ := List.mem_map.mp hq
  rw [List.mem_range] at ht
  obtain ⟨hnn, hlen, hex⟩ := hfb row hrow
  have hd1 : dim1 m ≠ 0 := by
    intro h0
    obtain ⟨c, hc, hcpos⟩ := hex
    rw [h0] at hlen
    rw [List.length_eq_zero.mp hlen] at hc
    exact absurd hc (List.not_mem_nil c)
  have hwidth := matmulFB_uniform_width m hr mb hmb
  rw [if_neg hd1] at hwidth
  rw [hwidth] at ht
  apply dot_pos row mb t hnn
  · intro r' hr'
    refine ⟨hp mb hmb r' hr', ?_⟩
    rw [(hr mb hmb).2 r' hr']
    exact ht
  · rw [hlen, (hr mb hmb).1]
  · exact hex

lemma map_zip1 (f : ℚ → ℚ) (g : ℚ → ℚ → ℚ) (r : List ℚ) : ∀ s : List ℚ,
    (List.zipWith g r s).map f = List.zipWith (fun p q => f (g p q)) r s := by
  induction r with
  | nil => intro s; simp
  | cons p r ih =>
    intro s
    cases s <;> simp [*]

lemma map_zip2 (f : ℚ → ℚ) (g : ℚ → ℚ → ℚ) (m : T2) : ∀ n : T2,
    (List.zipWith (fun r s => List.zipWith g r s) m n).map (fun r => r.map f)
      = List.zipWith (fun r s => List.zipWith (fun p q => f (g p q)) r s) m n
    := by
  induction m with
  | nil => intro n; simp
  | cons r m ih =>
    intro n
    cases n <;> simp [map_zip1, *]

lemma map1_map2q (f : ℚ → ℚ) (g : ℚ → ℚ → ℚ) (a : T3) : ∀ b : T3,
    map1 f (map2q g a b) = map2q (fun p q => f (g p q)) a b := by
  unfold map1 map2q
  induction a with
  | nil => intro b; simp
  | cons m a ih =>
    intro b
    cases b <;> simp [map_zip2, *]

lemma spectralConvergence_zero (ext : Ext) (hsq0 : ext.sqrtFn 0 = 0)
    (N N' : T3) (h : zipEq3 N N' = true) :
    SpectralConvergenceLoss.forward ext N N' = 0 := by
  unfold SpectralConvergenceLoss.forward froNorm
  rw [map1_map2q, sum3_map2q_diag_zero _ (by intro a; ring) N' N
    (zipEq3_symm _ _ h), hsq0, zero_div]

lemma logMag_zero (ext : Ext) (N N' : T3) (h : zipEq3 N N' = true) :
    LogSTFTMagnitudeLoss.forward ext N N' = 0 := by
  unfold LogSTFTMagnitudeLoss.forward
  rw [sum3_map2q_diag_zero _ (by intro a; simp) N N' h, zero_div]

/-- C9: evaluating the single-resolution loss with estimate and target both
equal to `x` yields zero total loss whenever the call returns, for every
configuration.  The hypotheses are the collaborator contracts: the square
root vanishes at zero and is positive on the `eps`-clamped arguments, the
transform output is rectangular, and a configured filterbank has nonnegative
rows of the transform's width, each with some positive weight. -/
theorem STFTLoss.self_loss_zero (ext : Ext) (self : STFTLoss) (x : Sig)
    (hsq0 : ext.sqrtFn 0 = 0)
    (hpos : ∀ q : ℚ, 0 < ext.sqrtFn (max q self.eps))
    (hrect : Rect3 (self.stft ext x).1)
    (hfb : ∀ fb, self.fb = some fb → ∀ row ∈ fb,
      (∀ c ∈ row, 0 ≤ c) ∧ row.length = dim1 (self.stft ext x).1 ∧
      ∃ c ∈ row, 0 < c) :
    ∀ q, self.lossValue ext x x = .ok q → q = 0 := by
  intro q hq
  have hMpos : posEntries3 (self.stft ext x).1 := by
    have hM : (self.stft ext x).1 = map2q
        (fun a b => ext.sqrtFn (max (a * a + b * b) self.eps))
        (ext.stft self.fft_size self.hop_size self.win_length self.window x).1
        (ext.stft self.fft_size self.hop_size self.win_length self.window x).2
        := rfl
    rw [hM]
    exact posEntries_map2q _ (fun a b => hpos (a * a + b * b)) _ _
  have key : ∀ N N', self.procMags ext x x = .ok (N, N') →
      zipEq3 N N' = true := by
    intro N N' hp
    unfold STFTLoss.procMags at hp
    cases hsc : self.scale with
    | none =>
      rw [hsc] at hp
      by_cases hsi : self.scale_invariance = true
      · rw [hsi] at hp
        have hp' : (scaleInvTarget (self.stft ext x).1 (self.stft ext x).1 >>=
            fun y' => pure ((self.stft ext x).1, y'))
            = (Except.ok (N, N') : Except PyErr (T3 × T3)) := hp
        cases hal : scaleInvTarget (self.stft ext x).1 (self.stft ext x).1 with
        | error e0 =>
          rw [hal] at hp'
          exact Except.noConfusion (show (Except.error e0 :
            Except PyErr (T3 × T3)) = .ok (N, N') from hp')
        | ok z =>
          rw [hal] at hp'
          have hp'' : (Except.ok ((self.stft ext x).1, z) :
              Except PyErr (T3 × T3)) = .ok (N, N') := hp'
          injection hp'' with h2
          injection h2 with ha hb
          subst ha
          subst hb
          exact scaleInvTarget_self_agrees _ hrect
            (sumSq2_cases _ hrect hMpos) z hal
      · have hsi' : self.scale_invariance = false := Bool.eq_false_iff.mpr hsi
        rw [hsi'] at hp
        have hp' : (Except.ok ((self.stft ext x).1, (self.stft ext x).1) :
            Except PyErr (T3 × T3)) = .ok (N, N') := hp
        injection hp' with h2
        injection h2 with ha hb
        subst ha
        subst hb
        exact zipEq3_refl _
    | some s =>
      rw [hsc] at hp
      cases hfbv : self.fb with
      | none =>
        rw [hfbv] at hp
        exact Except.noConfusion (show (Except.error PyErr.attributeErrorFb :
          Except PyErr (T3 × T3)) = .ok (N, N') from hp)
      | some fb =>
        rw [hfbv] at hp
        have hrect' : Rect3 (matmulFB fb (self.stft ext x).1) :=
          matmulFB_rect fb _ hrect
        have hpos' : posEntries3 (matmulFB fb (self.stft ext x).1) :=
          matmulFB_pos fb _ hrect hMpos (hfb fb hfbv)
        by_cases hsi : self.scale_invariance = true
        · rw [hsi] at hp
          have hp' : (scaleInvTarget (matmulFB fb (self.stft ext x).1)
              (matmulFB fb (self.stft ext x).1) >>=
              fun y' => pure (matmulFB fb (self.stft ext x).1, y'))
              = (Except.ok (N, N') : Except PyErr (T3 × T3)) := hp
          cases hal : scaleInvTarget (matmulFB fb (self.stft ext x).1)
              (matmulFB fb (self.stft ext x).1) with
          | error e0 =>
            rw [hal] at hp'
            exact Except.noConfusion (show (Except.error e0 :
              Except PyErr (T3 × T3)) = .ok (N, N') from hp')
          | ok z =>
            rw [hal] at hp'
            have hp'' : (Except.ok (matmulFB fb (self.stft ext x).1, z) :
                Except PyErr (T3 × T3)) = .ok (N, N') := hp'
            injection hp'' with h2
            injection h2 with ha hb
            subst ha
            subst hb
            exact scaleInvTarget_self_agrees _ hrect'
              (sumSq2_cases _ hrect' hpos') z hal
        · have hsi' : self.scale_invariance = false :=
            Bool.eq_false_iff.mpr hsi
          rw [hsi'] at hp
          have hp' : (Except.ok (matmulFB fb (self.stft ext x).1,
              matmulFB fb (self.stft ext x).1) :
              Except PyErr (T3 × T3)) = .ok (N, N') := hp
          injection hp' with h2
          injection h2 with ha hb
          subst ha
          subst hb
          exact zipEq3_refl _
  cases hp : self.procMags ext x x with
  | error e =>
    unfold STFTLoss.lossValue at hq
    rw [hp] at hq
    exact Except.noConfusion (show (Except.error e : Except PyErr ℚ)
      = .ok q from hq)
  | ok pr =>
    obtain ⟨N, N'⟩ := pr
    have hag := key N N' hp
    rw [STFTLoss.lossValue_eq ext self x x N N' hp] at hq
    injection hq with h1
    rw [← h1, spectralConvergence_zero ext hsq0 N N' hag,
      logMag_zero ext N N' hag,
      logMag_zero ext (self.stft ext x).2.1 (self.stft ext x).2.1
        (zipEq3_refl _),
      logMag_zero ext (self.stft ext x).2.2 (self.stft ext x).2.2
        (zipEq3_refl _)]
    simp

/-- C9 witness: identical one-sample signals through a scale-invariant
configuration produce exactly zero. -/
theorem STFTLoss.self_loss_zero_witness :
    STFTLoss.lossValue extW { cfgW with scale_invariance := true }
      [[1]] [[1]] = .ok 0 ∧ (0 : ℚ) = 0 :=
  ⟨by decide,
    STFTLoss.self_loss_zero extW { cfgW with scale_invariance := true } [[1]]
      (by decide)
      (fun q => lt_of_lt_of_le (show (0 : ℚ) < 1/100000000 by decide)
        ((le_max_right q _).trans (le_max_left _ 0)))
      (by decide)
      (fun fb h => Option.noConfusion h)
      0 (by decide)⟩

end Auraloss
